import Mathlib

/-!
Shallow embedding of the three Verilator driver programs of the
mlow-codec-ip repository:

* `src/formal/formal_main.cpp`           — the formal driver (`formalRunW`, `formalOut`)
* `src/tb/sv_tb/verilator_tb_mlow_codec.cpp`               — the basic driver (`vtbOut`)
* `src/tb/sv_tb/verilator_tb_mlow_codec_comprehensive.cpp` — the comprehensive driver (`compOut`)

Each driver's `main` is translated into a pure Lean function that produces the
sequence of externally visible actions it performs (input drives, `eval()`
calls, `trace->dump(t)` captures, the `gotFinish` checks, and the cleanup
calls), together with the process exit code and the message printed on exit.
The hardware model itself (`tb->eval()`) is opaque in the source and stays
opaque here: an `eval` event records the input state the model is evaluated
under.  The source's hard-coded loop bounds (5 reset cycles and 200 main
cycles in the formal driver, 50000 in the comprehensive driver, 10 and 10000
in the basic driver) appear as parameters `R`, `N`, `budget` so that the
spec's quantified properties can be stated; the source's constants are noted
at each definition.
-/

namespace Mlow

/-- Input signal state of the formal driver's testbench model: exactly the
fields `formal_main.cpp` assigns (`clk_i`, `reset_n_i`, `audio_data_i`,
`audio_valid_i`, plus the constant handshake/mode inputs set once at start). -/
structure Sig where
  clk : Bool
  reset_n : Bool
  audio_data : Nat
  audio_valid : Bool
  audio_ready : Bool
  frame_bus_ready : Bool
  frame_ready : Bool
  packet_ready : Bool
  encode_mode : Bool
  bitrate_sel : Nat
  bandwidth_sel : Nat
deriving DecidableEq, Repr

/-- The initial input assignment of `formal_main.cpp` (its "Initialize
signals" block): reset asserted (active-low, so `reset_n = false`), audio
data/valid zero, ready lines high, `encode_mode_i = 1`, `bitrate_sel_i = 5`,
`bandwidth_sel_i = 1`.  `clk` is zero-initialized by the model constructor. -/
def initSig : Sig :=
  { clk := false
    reset_n := false
    audio_data := 0
    audio_valid := false
    audio_ready := true
    frame_bus_ready := true
    frame_ready := true
    packet_ready := true
    encode_mode := true
    bitrate_sel := 5
    bandwidth_sel := 1 }

/-- A stimulus window: from cycle `start` (inclusive) to cycle `stop`
(exclusive) the audio input is driven valid with value `base + (i - start)`.
(`stop` rather than `end`, which is a Lean keyword.) -/
structure Window where
  start : Nat
  stop : Nat
  base : Nat
deriving DecidableEq, Repr

/-- Result of the stimulus computation for one cycle: either a valid data
value is driven, or the valid line is lowered. -/
inductive StimOut where
  | valid (data : Nat)
  | invalid
deriving DecidableEq, Repr

/-- The stimulus if-chain of `formal_main.cpp` (lines 66-74), generalized
from the two hard-coded windows to a list of windows tried in order: the
first window containing the cycle index wins, matching the source's
`if ... else if ... else` structure.  With no matching window the valid
line is lowered (the source's `else` branch). -/
def computeInputsW : List Window → Nat → StimOut
  | [], _ => .invalid
  | w :: ws, i =>
    if w.start ≤ i ∧ i < w.stop then .valid (w.base + (i - w.start))
    else computeInputsW ws i

/-- The two windows hard-coded in `formal_main.cpp`:
`i in [10,26) ↦ 0x1234 + (i-10)` and `i in [50,66) ↦ 0x5678 + (i-50)`. -/
def codeWindows : List Window := [⟨10, 26, 0x1234⟩, ⟨50, 66, 0x5678⟩]

/-- The stimulus function of `formal_main.cpp` as written, i.e. the if-chain
with its two hard-coded windows. -/
def computeInputs (i : Nat) : StimOut := computeInputsW codeWindows i

/-- Applying the stimulus result to the model inputs, as the source does:
a matching window writes `audio_data_i` and raises `audio_valid_i`; the
`else` branch only lowers `audio_valid_i`, leaving `audio_data_i` at its
previous value. -/
def applyStim (ws : List Window) (i : Nat) (s : Sig) : Sig :=
  match computeInputsW ws i with
  | .valid d => { s with audio_data := d, audio_valid := true }
  | .invalid => { s with audio_valid := false }

/-- Externally visible actions of the formal driver: input drives, model
evaluations (recording the input state evaluated under), trace captures
(`trace->dump(t)`, recording timestamp and the state captured), and the
cleanup calls at the end of `main`. -/
inductive Ev where
  | driveClk (b : Bool)
  | driveReset (b : Bool)
  | driveStim (o : StimOut)
  | eval (s : Sig)
  | capture (t : Nat) (s : Sig)
  | closeTrace
  | freeTrace
  | release
deriving DecidableEq, Repr

/-- One full clock cycle of the formal driver, the body shared by both of
its loops: drive `clk_i = 0`, `eval()`, `dump(2*g)`, drive `clk_i = 1`,
`eval()`, `dump(2*g + 1)`, where `g` is the global cycle index (the reset
loop dumps at `i*2`, `i*2+1` and the main loop at `(i+5)*2`, `(i+5)*2+1`,
both of the form `2*g`, `2*g+1`).  Returns the emitted events and the
signal state after the cycle. -/
def stepCycle (g : Nat) (s : Sig) : List Ev × Sig :=
  let sLo : Sig := { s with clk := false }
  let sHi : Sig := { s with clk := true }
  ([Ev.driveClk false, Ev.eval sLo, Ev.capture (2*g) sLo,
    Ev.driveClk true, Ev.eval sHi, Ev.capture (2*g + 1) sHi], sHi)

/-- The reset loop of `formal_main.cpp`: `n` cycles starting at global cycle
`g`, with no stimulus updates.  The source runs it with `g = 0`, `n = 5`. -/
def resetLoop : Nat → Nat → Sig → List Ev × Sig
  | _, 0, s => ([], s)
  | g, n+1, s =>
    let c := stepCycle g s
    let rest := resetLoop (g+1) n c.2
    (c.1 ++ rest.1, rest.2)

/-- The main loop of `formal_main.cpp`: iteration `i` performs a full clock
cycle at global cycle `i + R` (the source writes `(i + 5) * 2` with `R = 5`
reset cycles) and then — after the cycle's two evaluations — applies the
stimulus computed for index `i`.  `n` iterations remain, starting at `i`.
The source runs it with `i = 0`, `n = 200`. -/
def mainLoop (ws : List Window) (R : Nat) : Nat → Nat → Sig → List Ev × Sig
  | _, 0, s => ([], s)
  | i, n+1, s =>
    let c := stepCycle (i + R) s
    let s2 := applyStim ws i c.2
    let rest := mainLoop ws R (i+1) n s2
    (c.1 ++ Ev.driveStim (computeInputsW ws i) :: rest.1, rest.2)

/-- The whole simulation phase of `formal_main.cpp`'s `main`, with the
source's reset-hold count 5 and main budget 200 as parameters `R`, `N` and
the stimulus windows as parameter `ws`: initialize inputs, run the reset
loop, release reset (`reset_n_i = 1`, the single `driveReset` event), run
the main loop. -/
def formalRunW (ws : List Window) (R N : Nat) : List Ev × Sig :=
  let r := resetLoop 0 R initSig
  let s1 : Sig := { r.2 with reset_n := true }
  let m := mainLoop ws R 0 N s1
  (r.1 ++ Ev.driveReset true :: m.1, m.2)

/-- Event trace of the formal driver's run with the source's window list. -/
def formalRun (R N : Nat) : List Ev := (formalRunW codeWindows R N).1

/-- The signal state entering the formal driver's main loop: the state the
reset loop ends in, with reset released. -/
def resetExit (R : Nat) : Sig := { (resetLoop 0 R initSig).2 with reset_n := true }

/-- Observable outcome of one driver process: its event trace, exit code and
the message printed on completion. -/
structure DriverOut (ε : Type) where
  events : List ε
  exitCode : Int
  message : Option String
deriving DecidableEq

/-- The formal driver process (`formal_main.cpp` `main`): run, then
`trace->close()`, `delete trace`, `delete tb`, print the fixed success
message, `return 0`.  Source constants: `R = 5`, `N = 200`. -/
def formalOut (R N : Nat) : DriverOut Ev :=
  { events := formalRun R N ++ [Ev.closeTrace, Ev.freeTrace, Ev.release]
    exitCode := 0
    message := some ("Formal verification completed successfully") }

/-- `true` exactly on model-evaluation events. -/
def isEval : Ev → Bool
  | .eval _ => true
  | _ => false

/-- `true` exactly on trace-capture events. -/
def isCapture : Ev → Bool
  | .capture _ _ => true
  | _ => false

/-- `true` exactly on the low-phase clock drive that begins a cycle; its
count is the number of `stepCycle` invocations. -/
def isDriveClkLow : Ev → Bool
  | .driveClk false => true
  | _ => false

/-- `true` exactly on reset-line drive events. -/
def isDriveReset : Ev → Bool
  | .driveReset _ => true
  | _ => false

/-- `true` on the cleanup events of the formal driver. -/
def isCleanup : Ev → Bool
  | .closeTrace => true
  | .freeTrace => true
  | .release => true
  | _ => false

/-- Timestamps of the trace captures of an event list, in order. -/
def capTs : List Ev → List Nat
  | [] => []
  | .capture t _ :: es => t :: capTs es
  | _ :: es => capTs es

/-- Timestamp/state pairs of the trace captures of an event list, in order. -/
def capSnaps : List Ev → List (Nat × Sig)
  | [] => []
  | .capture t s :: es => (t, s) :: capSnaps es
  | _ :: es => capSnaps es

/-- Input states under which the model is evaluated, in order. -/
def evalSigs : List Ev → List Sig
  | [] => []
  | .eval s :: es => s :: evalSigs es
  | _ :: es => evalSigs es

/-- Number of `stepCycle` invocations recorded in an event list. -/
def cycleCount (l : List Ev) : Nat := l.countP (fun e => isDriveClkLow e)

/-- Concatenation of `f i, f (i+1), ..., f (i+n-1)` — the event trace of a
counted loop whose iteration `j` emits `f j`. -/
def seqJoin {α : Type} (f : Nat → List α) : Nat → Nat → List α
  | _, 0 => []
  | i, n+1 => f i ++ seqJoin f (i+1) n

/-- The signal state entering main-loop iteration `i + n` when iteration `i`
was entered in state `s`: the fold of cycle-`j` stimulus application (each
preceded by the clock ending high) for `j = i, ..., i+n-1`. -/
def stimFold (ws : List Window) : Nat → Nat → Sig → Sig
  | _, 0, s => s
  | i, n+1, s => stimFold ws (i+1) n (applyStim ws i { s with clk := true })

/-- What a model input state shows for a stimulus result: a valid window
value means the valid line is high with that data; outside every window the
valid line is low (the data line is left at its previous value by the
source's `else` branch, so nothing is said about it). -/
def ReflectsStim (s : Sig) : StimOut → Prop
  | .valid d => s.audio_valid = true ∧ s.audio_data = d
  | .invalid => s.audio_valid = false

/-- Trace captures of the formal run made during the reset-hold cycles
(virtual timestamps below `2*R`). -/
def resetCaps (R N : Nat) : List (Nat × Sig) :=
  (capSnaps (formalRun R N)).filter (fun p => decide (p.1 < 2*R))

/-- Trace captures of the formal run made after the reset-hold cycles
(virtual timestamps at least `2*R`). -/
def mainCaps (R N : Nat) : List (Nat × Sig) :=
  (capSnaps (formalRun R N)).filter (fun p => decide (2*R ≤ p.1))

/-- An overlapping window pair: the source's first window `[10,26)` together
with a second window `[20,30)` on the same input, as in the spec's
configuration-error example. -/
def overlapWindows : List Window := [⟨10, 26, 0x1234⟩, ⟨20, 30, 0x5678⟩]

/-- Externally visible actions of the two `tb_mlow_codec` drivers
(`verilator_tb_mlow_codec.cpp` and the comprehensive variant): these drive
no inputs (the testbench module clocks itself), so an event is a model
evaluation (numbered), a trace capture (`tfp->dump(t)`), a
`Verilated::gotFinish()` check, or a cleanup call; `finalize` is
`top->final()`, `release` is `delete` of the model. -/
inductive CEv where
  | check
  | eval (n : Nat)
  | capture (t : Nat)
  | closeTrace
  | freeTrace
  | finalize
  | release
deriving DecidableEq, Repr

/-- `true` exactly on evaluation events of the testbench drivers. -/
def isEvalC : CEv → Bool
  | .eval _ => true
  | _ => false

/-- `true` exactly on capture events of the testbench drivers. -/
def isCapC : CEv → Bool
  | .capture _ => true
  | _ => false

/-- `true` on the cleanup events of the testbench drivers. -/
def isCleanupC : CEv → Bool
  | .closeTrace => true
  | .freeTrace => true
  | .finalize => true
  | .release => true
  | _ => false

/-- The run loop of `verilator_tb_mlow_codec_comprehensive.cpp`:
`while (!Verilated::gotFinish() && cycle < budget) { eval; dump(cycle);
cycle++; }`.  The `gotFinish` flag after `n` evaluations is modelled by the
predicate `finish n`; the loop counter equals the number of evaluations
performed, so the flag consulted at the top of an iteration is
`finish cycle`.  `fuel` bounds the recursion; `compRun` supplies
`budget + 1`, which the guard `cycle < budget` keeps from ever running out,
so the fuel-exhausted branch is unreachable there.  Returns the events and
the final value of `cycle`.  The source's budget constant is 50000. -/
def compLoop (finish : Nat → Bool) (budget : Nat) : Nat → Nat → List CEv × Nat
  | cycle, 0 => ([], cycle)
  | cycle, fuel+1 =>
    if finish cycle = false ∧ cycle < budget then
      let rest := compLoop finish budget (cycle+1) fuel
      (CEv.check :: CEv.eval cycle :: CEv.capture cycle :: rest.1, rest.2)
    else
      ([CEv.check], cycle)

/-- The comprehensive driver's run loop started from `cycle = 0`. -/
def compRun (finish : Nat → Bool) (budget : Nat) : List CEv × Nat :=
  compLoop finish budget 0 (budget + 1)

/-- The completion message of the comprehensive driver, reporting the final
cycle count. -/
def compMessage (c : Nat) : String :=
  "Comprehensive testbench simulation completed after " ++ toString c ++ " cycles."

/-- The comprehensive driver process: run the loop, then `tfp->close()`,
`delete tfp`, `delete tb`, print the completion message with the cycle
count, `return 0`. -/
def compOut (finish : Nat → Bool) (budget : Nat) : DriverOut CEv :=
  { events := (compRun finish budget).1 ++ [CEv.closeTrace, CEv.freeTrace, CEv.release]
    exitCode := 0
    message := some (compMessage (compRun finish budget).2) }

/-- The basic driver's loop budget (`verilator_tb_mlow_codec.cpp` runs its
main loop for at most 10000 iterations). -/
def vtbBudget : Nat := 10000

/-- The main loop of `verilator_tb_mlow_codec.cpp`: for `i` below the
budget, `eval()` (the `10 + i`-th evaluation overall, after the 10
evaluations of its warm-up loop), `dump(10 + i)`, then break if
`Verilated::gotFinish()` — the flag after `11 + i` evaluations is
`finish (11 + i)`.  `fuel` bounds the recursion; `vtbOut` supplies
`vtbBudget + 1`, which the guard keeps from running out. -/
def vtbLoop (finish : Nat → Bool) : Nat → Nat → List CEv
  | _, 0 => []
  | i, fuel+1 =>
    if i < vtbBudget then
      if finish (11 + i) then
        [CEv.eval (10 + i), CEv.capture (10 + i), CEv.check]
      else
        CEv.eval (10 + i) :: CEv.capture (10 + i) :: CEv.check :: vtbLoop finish (i+1) fuel
    else []

/-- The basic driver process (`verilator_tb_mlow_codec.cpp` `main`, with
tracing compiled in): a 10-iteration warm-up loop of `eval(); dump(i)`, the
main loop, then `tfp->close()`, `delete tfp`, `top->final()`, `delete top`,
`return 0` — and no message is printed. -/
def vtbOut (finish : Nat → Bool) : DriverOut CEv :=
  { events := seqJoin (fun i => [CEv.eval i, CEv.capture i]) 0 10
      ++ vtbLoop finish 0 (vtbBudget + 1)
      ++ [CEv.closeTrace, CEv.freeTrace, CEv.finalize, CEv.release]
    exitCode := 0
    message := none }

/-! ### Generic facts about the observers -/

theorem capTs_append (a b : List Ev) : capTs (a ++ b) = capTs a ++ capTs b := by
  induction a with
  | nil => rfl
  | cons e es ih => cases e <;> simp [capTs, ih]

theorem capSnaps_append (a b : List Ev) :
    capSnaps (a ++ b) = capSnaps a ++ capSnaps b := by
  induction a with
  | nil => rfl
  | cons e es ih => cases e <;> simp [capSnaps, ih]

theorem evalSigs_append (a b : List Ev) :
    evalSigs (a ++ b) = evalSigs a ++ evalSigs b := by
  induction a with
  | nil => rfl
  | cons e es ih => cases e <;> simp [evalSigs, ih]

theorem capTs_eq_map_fst (l : List Ev) : capTs l = (capSnaps l).map Prod.fst := by
  induction l with
  | nil => rfl
  | cons e es ih => cases e <;> simp [capTs, capSnaps, ih]

theorem seqJoin_map {α β : Type} (f : α → β) (g : Nat → List α) :
    ∀ n i, (seqJoin g i n).map f = seqJoin (fun j => (g j).map f) i n := by
  intro n
  induction n with
  | zero => intro i; rfl
  | succ n ih => intro i; simp [seqJoin, ih]

theorem mem_seqJoin {α : Type} (f : Nat → List α) :
    ∀ n i x, x ∈ seqJoin f i n → ∃ j, i ≤ j ∧ j < i + n ∧ x ∈ f j := by
  intro n
  induction n with
  | zero => intro i x h; cases h
  | succ n ih =>
    intro i x h
    rcases List.mem_append.1 h with h | h
    · exact ⟨i, Nat.le_refl i, by omega, h⟩
    · rcases ih (i+1) x h with ⟨j, h1, h2, h3⟩
      exact ⟨j, by omega, by omega, h3⟩

theorem seqJoin_pair_ts : ∀ n i,
    seqJoin (fun c => [2*c, 2*c + 1]) i n = List.range' (2*i) (2*n) := by
  intro n
  induction n with
  | zero => intro i; rfl
  | succ n ih =>
    intro i
    show [2*i, 2*i + 1] ++ seqJoin (fun c => [2*c, 2*c + 1]) (i+1) n = _
    rw [ih (i+1)]
    have h2 : 2*(n+1) = (2*n) + 1 + 1 := by ring
    have h3 : 2*(i+1) = 2*i + 1 + 1 := by ring
    rw [h2, h3, List.range'_succ, List.range'_succ]
    rfl

/-! ### Characterization of the formal driver's loops -/

theorem stepCycle_snd (g : Nat) (s : Sig) :
    (stepCycle g s).2 = { s with clk := true } := rfl

theorem capTs_stepCycle (g : Nat) (s : Sig) :
    capTs (stepCycle g s).1 = [2*g, 2*g + 1] := rfl

theorem capSnaps_stepCycle (g : Nat) (s : Sig) :
    capSnaps (stepCycle g s).1 =
      [(2*g, { s with clk := false }), (2*g + 1, { s with clk := true })] := rfl

theorem evalSigs_stepCycle (g : Nat) (s : Sig) :
    evalSigs (stepCycle g s).1 = [{ s with clk := false }, { s with clk := true }] := rfl

theorem cycleCount_stepCycle (g : Nat) (s : Sig) :
    cycleCount (stepCycle g s).1 = 1 := rfl

theorem capSnaps_resetLoop : ∀ (n g : Nat) (s : Sig),
    capSnaps (resetLoop g n s).1 =
      seqJoin (fun c => [(2*c, { s with clk := false }), (2*c + 1, { s with clk := true })]) g n := by
  intro n
  induction n with
  | zero => intro g s; rfl
  | succ n ih =>
    intro g s
    simp only [resetLoop, capSnaps_append]
    rw [stepCycle_snd, ih (g+1)]
    rfl

theorem capTs_resetLoop (n g : Nat) (s : Sig) :
    capTs (resetLoop g n s).1 = List.range' (2*g) (2*n) := by
  rw [capTs_eq_map_fst, capSnaps_resetLoop, seqJoin_map, ← seqJoin_pair_ts]
  rfl

theorem capTs_mainLoop (ws : List Window) (R : Nat) : ∀ (n i : Nat) (s : Sig),
    capTs (mainLoop ws R i n s).1 = List.range' (2*(i+R)) (2*n) := by
  intro n
  induction n with
  | zero => intro i s; rfl
  | succ n ih =>
    intro i s
    simp only [mainLoop, capTs_append]
    have hskip : capTs (Ev.driveStim (computeInputsW ws i)
        :: (mainLoop ws R (i+1) n (applyStim ws i (stepCycle (i+R) s).2)).1)
        = capTs (mainLoop ws R (i+1) n (applyStim ws i (stepCycle (i+R) s).2)).1 := rfl
    rw [hskip, ih (i+1), capTs_stepCycle]
    have h2 : 2*(n+1) = (2*n) + 1 + 1 := by ring
    have h3 : 2*(i+1+R) = 2*(i+R) + 1 + 1 := by ring
    rw [h2, h3, List.range'_succ, List.range'_succ]
    rfl

theorem cycleCount_append (a b : List Ev) :
    cycleCount (a ++ b) = cycleCount a + cycleCount b := by
  simp [cycleCount, List.countP_append]

theorem cycleCount_resetLoop : ∀ (n g : Nat) (s : Sig),
    cycleCount (resetLoop g n s).1 = n := by
  intro n
  induction n with
  | zero => intro g s; rfl
  | succ n ih =>
    intro g s
    simp only [resetLoop, cycleCount_append]
    rw [ih (g+1), cycleCount_stepCycle]
    omega

theorem cycleCount_mainLoop (ws : List Window) (R : Nat) : ∀ (n i : Nat) (s : Sig),
    cycleCount (mainLoop ws R i n s).1 = n := by
  intro n
  induction n with
  | zero => intro i s; rfl
  | succ n ih =>
    intro i s
    simp only [mainLoop]
    rw [cycleCount_append]
    have hskip : cycleCount (Ev.driveStim (computeInputsW ws i)
        :: (mainLoop ws R (i+1) n (applyStim ws i (stepCycle (i+R) s).2)).1)
        = cycleCount (mainLoop ws R (i+1) n (applyStim ws i (stepCycle (i+R) s).2)).1 := by
      simp [cycleCount, List.countP_cons, isDriveClkLow]
    rw [hskip, ih (i+1), cycleCount_stepCycle]
    omega

theorem cycleCount_formalRunW (ws : List Window) (R N : Nat) :
    cycleCount (formalRunW ws R N).1 = R + N := by
  simp only [formalRunW]
  rw [cycleCount_append]
  have h1 : cycleCount (Ev.driveReset true :: (mainLoop ws R 0 N { (resetLoop 0 R initSig).2 with reset_n := true }).1)
      = cycleCount (mainLoop ws R 0 N { (resetLoop 0 R initSig).2 with reset_n := true }).1 := by
    simp [cycleCount, List.countP_cons, isDriveClkLow]
  rw [h1, cycleCount_resetLoop, cycleCount_mainLoop]

theorem capSnaps_formalRun (R N : Nat) :
    capSnaps (formalRun R N) =
      capSnaps (resetLoop 0 R initSig).1 ++ capSnaps (mainLoop codeWindows R 0 N (resetExit R)).1 := by
  simp only [formalRun, formalRunW, capSnaps_append, resetExit]
  rfl

theorem capTs_formalRun (R N : Nat) :
    capTs (formalRun R N) = List.range (2*(R+N)) := by
  simp only [formalRun, formalRunW]
  rw [capTs_append]
  have h1 : capTs (Ev.driveReset true :: (mainLoop codeWindows R 0 N { (resetLoop 0 R initSig).2 with reset_n := true }).1)
      = capTs (mainLoop codeWindows R 0 N { (resetLoop 0 R initSig).2 with reset_n := true }).1 := rfl
  rw [h1, capTs_resetLoop, capTs_mainLoop]
  have h2 : (2:Nat)*0 = 0 := rfl
  have h3 : (0:Nat) + R = R := by omega
  rw [h3, List.range_eq_range']
  have := List.range'_append 0 (2*R) (2*N) 1
  simp only [one_mul, Nat.zero_add] at this
  rw [this]
  congr 1
  omega

/-! ### Reset-line and state-preservation facts -/

theorem applyStim_reset_n (ws : List Window) (i : Nat) (s : Sig) :
    (applyStim ws i s).reset_n = s.reset_n := by
  unfold applyStim
  split <;> rfl

theorem seqJoin_pair_length {α : Type} (x y : Nat → α) : ∀ n i,
    (seqJoin (fun c => [x c, y c]) i n).length = 2*n := by
  intro n
  induction n with
  | zero => intro i; rfl
  | succ n ih =>
    intro i
    show ([x i, y i] ++ seqJoin (fun c => [x c, y c]) (i+1) n).length = 2*(n+1)
    rw [List.length_append, ih (i+1)]
    simp
    omega

theorem capSnaps_mainLoop_length (ws : List Window) (R : Nat) : ∀ (n i : Nat) (s : Sig),
    (capSnaps (mainLoop ws R i n s).1).length = 2*n := by
  intro n
  induction n with
  | zero => intro i s; rfl
  | succ n ih =>
    intro i s
    simp only [mainLoop, capSnaps_append]
    have hskip : capSnaps (Ev.driveStim (computeInputsW ws i)
        :: (mainLoop ws R (i+1) n (applyStim ws i (stepCycle (i+R) s).2)).1)
        = capSnaps (mainLoop ws R (i+1) n (applyStim ws i (stepCycle (i+R) s).2)).1 := rfl
    rw [hskip, List.length_append, ih (i+1), capSnaps_stepCycle]
    simp
    omega

theorem mem_capSnaps_mainLoop (ws : List Window) (R : Nat) : ∀ (n i : Nat) (s : Sig),
    ∀ p ∈ capSnaps (mainLoop ws R i n s).1,
      2*(i+R) ≤ p.1 ∧ p.2.reset_n = s.reset_n := by
  intro n
  induction n with
  | zero => intro i s p hp; cases hp
  | succ n ih =>
    intro i s p hp
    simp only [mainLoop, capSnaps_append] at hp
    have hskip : capSnaps (Ev.driveStim (computeInputsW ws i)
        :: (mainLoop ws R (i+1) n (applyStim ws i (stepCycle (i+R) s).2)).1)
        = capSnaps (mainLoop ws R (i+1) n (applyStim ws i (stepCycle (i+R) s).2)).1 := rfl
    rw [hskip, capSnaps_stepCycle] at hp
    rcases List.mem_append.1 hp with hp | hp
    · rcases List.mem_pair.1 hp with h | h <;> subst h
      · exact ⟨Nat.le_refl _, rfl⟩
      · refine ⟨?_, rfl⟩
        show 2*(i+R) ≤ 2*(i+R) + 1
        omega
    · have := ih (i+1) (applyStim ws i (stepCycle (i+R) s).2) p hp
      refine ⟨by omega, ?_⟩
      rw [this.2, applyStim_reset_n, stepCycle_snd]

theorem filter_driveReset_stepCycle (g : Nat) (s : Sig) :
    (stepCycle g s).1.filter isDriveReset = [] := rfl

theorem filter_driveReset_resetLoop : ∀ (n g : Nat) (s : Sig),
    (resetLoop g n s).1.filter isDriveReset = [] := by
  intro n
  induction n with
  | zero => intro g s; rfl
  | succ n ih =>
    intro g s
    simp only [resetLoop, List.filter_append]
    rw [ih (g+1), filter_driveReset_stepCycle]
    rfl

theorem filter_driveReset_mainLoop (ws : List Window) (R : Nat) : ∀ (n i : Nat) (s : Sig),
    (mainLoop ws R i n s).1.filter isDriveReset = [] := by
  intro n
  induction n with
  | zero => intro i s; rfl
  | succ n ih =>
    intro i s
    simp only [mainLoop, List.filter_append]
    rw [filter_driveReset_stepCycle]
    have : (Ev.driveStim (computeInputsW ws i)
        :: (mainLoop ws R (i+1) n (applyStim ws i (stepCycle (i+R) s).2)).1).filter isDriveReset
        = (mainLoop ws R (i+1) n (applyStim ws i (stepCycle (i+R) s).2)).1.filter isDriveReset := by
      simp [List.filter_cons, isDriveReset]
    rw [this, ih (i+1)]
    rfl

theorem resetCaps_eq (R N : Nat) :
    resetCaps R N = capSnaps (resetLoop 0 R initSig).1 := by
  unfold resetCaps
  rw [capSnaps_formalRun, List.filter_append]
  have h1 : (capSnaps (resetLoop 0 R initSig).1).filter (fun p => decide (p.1 < 2*R))
      = capSnaps (resetLoop 0 R initSig).1 := by
    rw [List.filter_eq_self]
    intro p hp
    rw [capSnaps_resetLoop] at hp
    rcases mem_seqJoin _ _ _ _ hp with ⟨j, hj1, hj2, hj3⟩
    rcases List.mem_pair.1 hj3 with h | h <;> subst h
    · show decide (2*j < 2*R) = true
      simp
      omega
    · show decide (2*j + 1 < 2*R) = true
      simp
      omega
  have h2 : (capSnaps (mainLoop codeWindows R 0 N (resetExit R)).1).filter (fun p => decide (p.1 < 2*R))
      = [] := by
    rw [List.filter_eq_nil_iff]
    intro p hp
    have := (mem_capSnaps_mainLoop codeWindows R N 0 (resetExit R) p hp).1
    simp
    omega
  rw [h1, h2, List.append_nil]

theorem mainCaps_eq (R N : Nat) :
    mainCaps R N = capSnaps (mainLoop codeWindows R 0 N (resetExit R)).1 := by
  unfold mainCaps
  rw [capSnaps_formalRun, List.filter_append]
  have h1 : (capSnaps (resetLoop 0 R initSig).1).filter (fun p => decide (2*R ≤ p.1))
      = [] := by
    rw [List.filter_eq_nil_iff]
    intro p hp
    rw [capSnaps_resetLoop] at hp
    rcases mem_seqJoin _ _ _ _ hp with ⟨j, hj1, hj2, hj3⟩
    rcases List.mem_pair.1 hj3 with h | h <;> subst h
    · show ¬(decide (2*R ≤ 2*j) = true)
      simp
      omega
    · show ¬(decide (2*R ≤ 2*j + 1) = true)
      simp
      omega
  have h2 : (capSnaps (mainLoop codeWindows R 0 N (resetExit R)).1).filter (fun p => decide (2*R ≤ p.1))
      = capSnaps (mainLoop codeWindows R 0 N (resetExit R)).1 := by
    rw [List.filter_eq_self]
    intro p hp
    have := (mem_capSnaps_mainLoop codeWindows R N 0 (resetExit R) p hp).1
    simp
    omega
  rw [h1, h2, List.nil_append]

/-! ### Claim C1 -/

/-- C1, amended.  The claim asserted `N` `stepCycle` invocations and `2N`
captures with timestamps `0..2N-1` for a run with cycle budget `N`; on the
code the reset-hold cycles also step the clock and capture, so a run with
reset-hold `R` and main budget `N` performs exactly `R + N` cycle steps and
`2*(R+N)` captures whose timestamps are exactly `0..2*(R+N)-1`, strictly
increasing with no gaps or repeats. -/
theorem c1_run_counts (R N : Nat) :
    cycleCount (formalRun R N) = R + N ∧
    (capTs (formalRun R N)).length = 2*(R+N) ∧
    capTs (formalRun R N) = List.range (2*(R+N)) ∧
    List.Pairwise (fun a b => a < b) (capTs (formalRun R N)) := by
  have h := capTs_formalRun R N
  refine ⟨cycleCount_formalRunW codeWindows R N, ?_, h, ?_⟩
  · rw [h, List.length_range]
  · rw [h]; exact List.pairwise_lt_range _

/-- C1, counterexample.  At the source's constants (reset hold 5, main
budget 200) the run performs 205 cycle steps, not 200, and its capture
timestamps are `0..409`, not `0..399`: the claim's counts fail as stated. -/
theorem c1_counterexample :
    ¬(cycleCount (formalRun 5 200) = 200 ∧ capTs (formalRun 5 200) = List.range (2*200)) := by
  intro h
  have h1 : cycleCount (formalRun 5 200) = 205 := cycleCount_formalRunW codeWindows 5 200
  omega

/-! ### Claim C2 -/

/-- C2, confirmed.  Every cycle step performs exactly two model evaluations;
it drives the clock low, evaluates, captures at timestamp `2*cycleIndex`,
then drives the clock high, evaluates, captures at timestamp
`2*cycleIndex + 1`; in each phase the evaluation immediately precedes the
capture and the captured snapshot is exactly the just-evaluated state. -/
theorem c2_stepCycle_contract (g : Nat) (s : Sig) :
    ((stepCycle g s).1.countP (fun e => isEval e)) = 2 ∧
    capSnaps (stepCycle g s).1 =
      [(2*g, { s with clk := false }), (2*g + 1, { s with clk := true })] ∧
    (stepCycle g s).1.take 3 =
      [Ev.driveClk false, Ev.eval { s with clk := false },
       Ev.capture (2*g) { s with clk := false }] ∧
    (stepCycle g s).1.drop 3 =
      [Ev.driveClk true, Ev.eval { s with clk := true },
       Ev.capture (2*g + 1) { s with clk := true }] :=
  ⟨rfl, rfl, rfl, rfl⟩

/-! ### Claim C3 -/

/-- C3, confirmed.  Reset is asserted (active-low `reset_n = false`) in
every snapshot captured during the reset-hold cycles `0..R-1`; the clock
still toggles and captures still occur there (`2*R` captures, alternating
clock phase); reset is deasserted by exactly one reset-line drive event in
the whole run (value `true`, never reasserted); and every snapshot after
the hold shows reset deasserted. -/
theorem c3_reset_hold (R N : Nat) :
    (formalRun R N).filter isDriveReset = [Ev.driveReset true] ∧
    (resetCaps R N).length = 2*R ∧
    (∀ p ∈ resetCaps R N, p.2.reset_n = false ∧ p.2.clk = decide (p.1 % 2 = 1)) ∧
    (mainCaps R N).length = 2*N ∧
    (∀ p ∈ mainCaps R N, p.2.reset_n = true) := by
  refine ⟨?_, ?_, ?_, ?_, ?_⟩
  · simp only [formalRun, formalRunW, List.filter_append]
    rw [filter_driveReset_resetLoop]
    have : (Ev.driveReset true
        :: (mainLoop codeWindows R 0 N { (resetLoop 0 R initSig).2 with reset_n := true }).1).filter isDriveReset
        = Ev.driveReset true
        :: (mainLoop codeWindows R 0 N { (resetLoop 0 R initSig).2 with reset_n := true }).1.filter isDriveReset := by
      simp [List.filter_cons, isDriveReset]
    rw [this, filter_driveReset_mainLoop]
    rfl
  · rw [resetCaps_eq, capSnaps_resetLoop]
    exact seqJoin_pair_length _ _ R 0
  · intro p hp
    rw [resetCaps_eq, capSnaps_resetLoop] at hp
    rcases mem_seqJoin _ _ _ _ hp with ⟨j, hj1, hj2, hj3⟩
    rcases List.mem_pair.1 hj3 with h | h <;> subst h
    · refine ⟨rfl, ?_⟩
      show false = decide ((2*j) % 2 = 1)
      have h0 : (2*j) % 2 = 0 := by omega
      simp [h0]
    · refine ⟨rfl, ?_⟩
      show true = decide ((2*j + 1) % 2 = 1)
      have h0 : (2*j + 1) % 2 = 1 := by omega
      simp [h0]
  · rw [mainCaps_eq]
    exact capSnaps_mainLoop_length codeWindows R N 0 _
  · intro p hp
    rw [mainCaps_eq] at hp
    exact (mem_capSnaps_mainLoop codeWindows R N 0 (resetExit R) p hp).2

/-! ### Claim C4 -/

/-- C4, confirmed.  For the two configured windows the stimulus function
yields `base + (c - start)` marked valid inside `[start, stop)` and marks
the input invalid outside both windows; in particular `computeInputs 15 =
valid 0x1239` and `computeInputs 9`, `computeInputs 26` are invalid. -/
theorem c4_stimulus_windows : ∀ c : Nat,
    (10 ≤ c ∧ c < 26 → computeInputs c = StimOut.valid (0x1234 + (c - 10))) ∧
    (50 ≤ c ∧ c < 66 → computeInputs c = StimOut.valid (0x5678 + (c - 50))) ∧
    (¬(10 ≤ c ∧ c < 26) → ¬(50 ≤ c ∧ c < 66) → computeInputs c = StimOut.invalid) ∧
    computeInputs 15 = StimOut.valid 0x1239 ∧
    computeInputs 9 = StimOut.invalid ∧
    computeInputs 26 = StimOut.invalid := by
  intro c
  refine ⟨?_, ?_, ?_, by decide, by decide, by decide⟩
  · intro h
    simp only [computeInputs, computeInputsW, codeWindows]
    rw [if_pos]
    exact h
  · intro h
    simp only [computeInputs, computeInputsW, codeWindows]
    rw [if_neg (by omega), if_pos]
    exact h
  · intro h1 h2
    simp only [computeInputs, computeInputsW, codeWindows]
    rw [if_neg (by omega), if_neg (by omega)]

/-- C4, witness: the three concrete spec examples, obtained from
`c4_stimulus_windows` at `c = 15`, `9`, `26`. -/
theorem c4_witness :
    computeInputs 15 = StimOut.valid 0x1239 ∧
    computeInputs 9 = StimOut.invalid ∧
    computeInputs 26 = StimOut.invalid :=
  ⟨(c4_stimulus_windows 15).2.2.2.1,
   (c4_stimulus_windows 9).2.2.2.2.1,
   (c4_stimulus_windows 26).2.2.2.2.2⟩

/-! ### The states evaluated during the main loop (claim C5) -/

theorem evalSigs_formalRun (R N : Nat) :
    evalSigs (formalRun R N) =
      evalSigs (resetLoop 0 R initSig).1 ++ evalSigs (mainLoop codeWindows R 0 N (resetExit R)).1 := by
  simp only [formalRun, formalRunW, evalSigs_append, resetExit]
  rfl

theorem evalSigs_resetLoop_length : ∀ (n g : Nat) (s : Sig),
    (evalSigs (resetLoop g n s).1).length = 2*n := by
  intro n
  induction n with
  | zero => intro g s; rfl
  | succ n ih =>
    intro g s
    simp only [resetLoop, evalSigs_append]
    rw [List.length_append, ih (g+1), evalSigs_stepCycle]
    simp
    omega

theorem stimFold_last (ws : List Window) : ∀ (n i : Nat) (s : Sig),
    stimFold ws i (n+1) s = applyStim ws (i+n) { stimFold ws i n s with clk := true } := by
  intro n
  induction n with
  | zero =>
    intro i s
    show stimFold ws (i+1) 0 (applyStim ws i { s with clk := true })
        = applyStim ws (i+0) { s with clk := true }
    rfl
  | succ n ih =>
    intro i s
    show stimFold ws (i+1) (n+1) (applyStim ws i { s with clk := true }) = _
    rw [ih (i+1)]
    have : i + 1 + n = i + (n+1) := by omega
    rw [this]
    rfl

theorem mainEval_get (ws : List Window) (R : Nat) : ∀ (c n i : Nat) (s : Sig), c < n →
    (evalSigs (mainLoop ws R i n s).1).get? (2*c)
        = some { stimFold ws i c s with clk := false } ∧
    (evalSigs (mainLoop ws R i n s).1).get? (2*c + 1)
        = some { stimFold ws i c s with clk := true } := by
  intro c
  induction c with
  | zero =>
    intro n i s hc
    match n, hc with
    | n+1, _ =>
      constructor <;> rfl
  | succ c ih =>
    intro n i s hc
    match n, hc with
    | n+1, hc =>
      have hc' : c < n := by omega
      have heq : evalSigs (mainLoop ws R i (n+1) s).1
          = { s with clk := false } :: { s with clk := true }
            :: evalSigs (mainLoop ws R (i+1) n (applyStim ws i { s with clk := true })).1 := rfl
      have h1 := ih n (i+1) (applyStim ws i { s with clk := true }) hc'
      constructor
      · rw [heq]
        have : 2*(c+1) = (2*c) + 1 + 1 := by ring
        rw [this]
        show (evalSigs (mainLoop ws R (i+1) n (applyStim ws i { s with clk := true })).1).get? (2*c) = _
        rw [h1.1]
        rfl
      · rw [heq]
        have : 2*(c+1) + 1 = (2*c + 1) + 1 + 1 := by ring
        rw [this]
        show (evalSigs (mainLoop ws R (i+1) n (applyStim ws i { s with clk := true })).1).get? (2*c + 1) = _
        rw [h1.2]
        rfl

theorem reflectsStim_applyStim (ws : List Window) (i : Nat) (s : Sig) :
    ReflectsStim (applyStim ws i s) (computeInputsW ws i) := by
  unfold applyStim ReflectsStim
  cases h : computeInputsW ws i
  · exact ⟨rfl, rfl⟩
  · rfl

theorem reflectsStim_clk (s : Sig) (b : Bool) (o : StimOut)
    (h : ReflectsStim s o) : ReflectsStim { s with clk := b } o := by
  cases o <;> exact h

/-- C5, counterexample.  In the source run (reset hold 5, main budget 200)
the two model evaluations of main-loop cycle 10 — positions 30 and 31 of
the run's evaluation sequence, after the 10 reset-phase evaluations — see
`audio_valid = false`, although the Stimulus Generator result for cycle 10
is valid data `0x1234`: the inputs evaluated during cycle 10 are not the
ones computed for cycle 10, because the source applies the stimulus for
cycle `i` only after cycle `i`'s two evaluations. -/
theorem c5_counterexample :
    ((evalSigs (formalRun 5 200)).get? 30).map (fun s => s.audio_valid) = some false ∧
    ((evalSigs (formalRun 5 200)).get? 31).map (fun s => s.audio_valid) = some false ∧
    computeInputs 10 = StimOut.valid 0x1234 := by
  refine ⟨?_, ?_, by decide⟩
  · have h := evalSigs_formalRun 5 200
    have hlen : (evalSigs (resetLoop 0 5 initSig).1).length = 10 := evalSigs_resetLoop_length 5 0 initSig
    have h30 : (30 : Nat) = (evalSigs (resetLoop 0 5 initSig).1).length + 20 := by omega
    rw [h, h30, List.get?_append_right (by omega)]
    have : (evalSigs (resetLoop 0 5 initSig).1).length + 20
        - (evalSigs (resetLoop 0 5 initSig).1).length = 20 := by omega
    rw [this]
    have hm := (mainEval_get codeWindows 5 10 200 0 (resetExit 5) (by omega)).1
    rw [hm]
    have : (stimFold codeWindows 0 10 (resetExit 5)).audio_valid = false := by decide
    simp [this]
  · have h := evalSigs_formalRun 5 200
    have hlen : (evalSigs (resetLoop 0 5 initSig).1).length = 10 := evalSigs_resetLoop_length 5 0 initSig
    have h31 : (31 : Nat) = (evalSigs (resetLoop 0 5 initSig).1).length + 21 := by omega
    rw [h, h31, List.get?_append_right (by omega)]
    have : (evalSigs (resetLoop 0 5 initSig).1).length + 21
        - (evalSigs (resetLoop 0 5 initSig).1).length = 21 := by omega
    rw [this]
    have hm := (mainEval_get codeWindows 5 10 200 0 (resetExit 5) (by omega)).2
    rw [hm]
    have : (stimFold codeWindows 0 10 (resetExit 5)).audio_valid = false := by decide
    simp [this]

/-- C5, amended.  The claim said stimulus for cycle `c` is applied before
the Clock Sequencer runs cycle `c`; in the code the order is reversed — the
stimulus computed for cycle `c` is applied after cycle `c`'s two
evaluations, so the inputs evaluated during main cycle `c+1` (evaluation
positions `2*R + 2*(c+1)` and `2*R + 2*(c+1) + 1` of the run) are the ones
the Stimulus Generator computed for cycle `c`. -/
theorem c5_stim_after_clock (R N c : Nat) (h : c + 1 < N) :
    ∃ sLo sHi : Sig,
      (evalSigs (formalRun R N)).get? (2*R + 2*(c+1)) = some sLo ∧
      (evalSigs (formalRun R N)).get? (2*R + 2*(c+1) + 1) = some sHi ∧
      ReflectsStim sLo (computeInputs c) ∧ ReflectsStim sHi (computeInputs c) := by
  have hsplit := evalSigs_formalRun R N
  have hlen : (evalSigs (resetLoop 0 R initSig).1).length = 2*R := evalSigs_resetLoop_length R 0 initSig
  have hm := mainEval_get codeWindows R (c+1) N 0 (resetExit R) h
  refine ⟨{ stimFold codeWindows 0 (c+1) (resetExit R) with clk := false },
          { stimFold codeWindows 0 (c+1) (resetExit R) with clk := true }, ?_, ?_, ?_, ?_⟩
  · rw [hsplit, List.get?_append_right (by omega)]
    have : 2*R + 2*(c+1) - (evalSigs (resetLoop 0 R initSig).1).length = 2*(c+1) := by omega
    rw [this]
    exact hm.1
  · rw [hsplit, List.get?_append_right (by omega)]
    have : 2*R + 2*(c+1) + 1 - (evalSigs (resetLoop 0 R initSig).1).length = 2*(c+1) + 1 := by omega
    rw [this]
    exact hm.2
  · apply reflectsStim_clk
    rw [stimFold_last]
    have : (0 : Nat) + c = c := by omega
    rw [this]
    exact reflectsStim_applyStim codeWindows c _
  · apply reflectsStim_clk
    rw [stimFold_last]
    have : (0 : Nat) + c = c := by omega
    rw [this]
    exact reflectsStim_applyStim codeWindows c _

/-- C5, witness for the amended theorem: at reset hold 1, budget 13, cycle
`c = 11`, the evaluations of main cycle 12 see the stimulus computed for
cycle 11. -/
theorem c5_witness :
    ∃ sLo sHi : Sig,
      (evalSigs (formalRun 1 13)).get? (2*1 + 2*(11+1)) = some sLo ∧
      (evalSigs (formalRun 1 13)).get? (2*1 + 2*(11+1) + 1) = some sHi ∧
      ReflectsStim sLo (computeInputs 11) ∧ ReflectsStim sHi (computeInputs 11) :=
  c5_stim_after_clock 1 13 11 (by omega)

/-! ### Characterization of the comprehensive driver's loop (claims C6, C10) -/

theorem compLoop_finishAt (k budget : Nat) (hk : k + 1 ≤ budget) :
    ∀ (fuel cycle : Nat), budget + 1 ≤ cycle + fuel → cycle ≤ k + 1 →
    compLoop (fun n => decide (k+1 ≤ n)) budget cycle fuel
      = (seqJoin (fun c => [CEv.check, CEv.eval c, CEv.capture c]) cycle (k+1-cycle)
          ++ [CEv.check], k+1) := by
  intro fuel
  induction fuel with
  | zero =>
    intro cycle h1 h2
    omega
  | succ fuel ih =>
    intro cycle h1 h2
    rcases Nat.lt_or_ge cycle (k+1) with hcy | hcy
    · have hcond : decide (k+1 ≤ cycle) = false ∧ cycle < budget := by
        constructor
        · simp
          omega
        · omega
      simp only [compLoop]
      rw [if_pos hcond, ih (cycle+1) (by omega) (by omega)]
      have he : k+1-cycle = (k-cycle)+1 := by omega
      have he2 : k+1-(cycle+1) = k-cycle := by omega
      rw [he, he2]
      rfl
    · have hcy2 : cycle = k+1 := by omega
      subst hcy2
      simp only [compLoop]
      rw [if_neg]
      · have he : k+1-(k+1) = 0 := by omega
        rw [he]
        rfl
      · intro hcon
        have := hcon.1
        simp at this

theorem compRun_finishAt (k budget : Nat) (h : k < budget) :
    compRun (fun n => decide (k+1 ≤ n)) budget
      = (seqJoin (fun c => [CEv.check, CEv.eval c, CEv.capture c]) 0 (k+1)
          ++ [CEv.check], k+1) := by
  have := compLoop_finishAt k budget (by omega) (budget+1) 0 (by omega) (by omega)
  have he : k+1-0 = k+1 := by omega
  rw [he] at this
  exact this

theorem seqJoin_check_rotate : ∀ (n i : Nat),
    seqJoin (fun c => [CEv.check, CEv.eval c, CEv.capture c]) i n ++ [CEv.check]
      = CEv.check :: seqJoin (fun c => [CEv.eval c, CEv.capture c, CEv.check]) i n := by
  intro n
  induction n with
  | zero => intro i; rfl
  | succ n ih =>
    intro i
    show CEv.check :: CEv.eval i :: CEv.capture i
        :: (seqJoin (fun c => [CEv.check, CEv.eval c, CEv.capture c]) (i+1) n ++ [CEv.check]) = _
    rw [ih (i+1)]
    rfl

theorem compLoop_counts (finish : Nat → Bool) (budget : Nat) :
    ∀ (fuel cycle : Nat),
      cycle ≤ (compLoop finish budget cycle fuel).2 ∧
      ((compLoop finish budget cycle fuel).1.countP isEvalC)
        = (compLoop finish budget cycle fuel).2 - cycle ∧
      ((compLoop finish budget cycle fuel).1.countP isCapC)
        = (compLoop finish budget cycle fuel).2 - cycle := by
  intro fuel
  induction fuel with
  | zero =>
    intro cycle
    refine ⟨Nat.le_refl _, ?_, ?_⟩ <;> simp [compLoop]
  | succ fuel ih =>
    intro cycle
    simp only [compLoop]
    by_cases hc : finish cycle = false ∧ cycle < budget
    · rw [if_pos hc]
      rcases ih (cycle+1) with ⟨ha, hb, hd⟩
      refine ⟨by omega, ?_, ?_⟩
      · rw [List.countP_cons, List.countP_cons, List.countP_cons,
          show isEvalC CEv.check = false from rfl,
          show isEvalC (CEv.eval cycle) = true from rfl,
          show isEvalC (CEv.capture cycle) = false from rfl, hb]
        simp
        omega
      · rw [List.countP_cons, List.countP_cons, List.countP_cons,
          show isCapC CEv.check = false from rfl,
          show isCapC (CEv.eval cycle) = false from rfl,
          show isCapC (CEv.capture cycle) = true from rfl, hd]
        simp
        omega
    · rw [if_neg hc]
      refine ⟨Nat.le_refl _, ?_, ?_⟩ <;> simp [List.countP_cons, isEvalC, isCapC]

/-! ### Absence of cleanup events inside the run loops (claim C9) -/

theorem resetLoop_no_cleanup : ∀ (n g : Nat) (s : Sig),
    (resetLoop g n s).1.filter isCleanup = [] := by
  intro n
  induction n with
  | zero => intro g s; rfl
  | succ n ih =>
    intro g s
    simp only [resetLoop, List.filter_append]
    rw [ih (g+1)]
    rfl

theorem mainLoop_no_cleanup (ws : List Window) (R : Nat) : ∀ (n i : Nat) (s : Sig),
    (mainLoop ws R i n s).1.filter isCleanup = [] := by
  intro n
  induction n with
  | zero => intro i s; rfl
  | succ n ih =>
    intro i s
    simp only [mainLoop, List.filter_append]
    have hskip : (Ev.driveStim (computeInputsW ws i)
        :: (mainLoop ws R (i+1) n (applyStim ws i (stepCycle (i+R) s).2)).1).filter isCleanup
        = (mainLoop ws R (i+1) n (applyStim ws i (stepCycle (i+R) s).2)).1.filter isCleanup := by
      simp [List.filter_cons, isCleanup]
    rw [hskip, ih (i+1)]
    rfl

theorem formalRun_no_cleanup (R N : Nat) :
    (formalRun R N).filter isCleanup = [] := by
  simp only [formalRun, formalRunW, List.filter_append]
  rw [resetLoop_no_cleanup]
  have hskip : (Ev.driveReset true
      :: (mainLoop codeWindows R 0 N { (resetLoop 0 R initSig).2 with reset_n := true }).1).filter isCleanup
      = (mainLoop codeWindows R 0 N { (resetLoop 0 R initSig).2 with reset_n := true }).1.filter isCleanup := by
    simp [List.filter_cons, isCleanup]
  rw [hskip, mainLoop_no_cleanup]
  rfl

theorem compLoop_no_cleanup (finish : Nat → Bool) (budget : Nat) :
    ∀ (fuel cycle : Nat), (compLoop finish budget cycle fuel).1.filter isCleanupC = [] := by
  intro fuel
  induction fuel with
  | zero => intro cycle; rfl
  | succ fuel ih =>
    intro cycle
    simp only [compLoop]
    by_cases hc : finish cycle = false ∧ cycle < budget
    · rw [if_pos hc]
      show (CEv.check :: CEv.eval cycle :: CEv.capture cycle
          :: (compLoop finish budget (cycle+1) fuel).1).filter isCleanupC = []
      simp only [List.filter_cons, isCleanupC]
      rw [ih (cycle+1)]
      rfl
    · rw [if_neg hc]
      rfl

theorem vtbLoop_no_cleanup (finish : Nat → Bool) : ∀ (fuel i : Nat),
    (vtbLoop finish i fuel).filter isCleanupC = [] := by
  intro fuel
  induction fuel with
  | zero => intro i; rfl
  | succ fuel ih =>
    intro i
    simp only [vtbLoop]
    by_cases h1 : i < vtbBudget
    · rw [if_pos h1]
      by_cases h2 : finish (11+i) = true
      · rw [if_pos h2]
        rfl
      · rw [if_neg h2]
        simp only [List.filter_cons, isCleanupC]
        rw [ih (i+1)]
        rfl
    · rw [if_neg h1]
      rfl

theorem seqJoin_evalcap_no_cleanup : ∀ (n i : Nat),
    (seqJoin (fun j => [CEv.eval j, CEv.capture j]) i n).filter isCleanupC = [] := by
  intro n
  induction n with
  | zero => intro i; rfl
  | succ n ih =>
    intro i
    show ([CEv.eval i, CEv.capture i]
        ++ seqJoin (fun j => [CEv.eval j, CEv.capture j]) (i+1) n).filter isCleanupC = []
    rw [List.filter_append, ih (i+1)]
    rfl

/-! ### Claim C6 -/

/-- C6, confirmed.  If the model first reports completion during the
evaluation of cycle `k` (so the `gotFinish` flag consulted after `n`
evaluations is `k+1 ≤ n`) and `k` is strictly below the cycle budget, the
comprehensive driver's loop executes exactly cycles `0..k` — `k+1` cycles,
not `budget` — and its event trace is one loop-entry check followed by, for
each cycle, evaluation then capture then exactly one finish check before
the next cycle begins. -/
theorem c6_early_termination (k budget : Nat) (h : k < budget) :
    (compRun (fun n => decide (k+1 ≤ n)) budget).2 = k + 1 ∧
    (compRun (fun n => decide (k+1 ≤ n)) budget).1
      = CEv.check :: seqJoin (fun c => [CEv.eval c, CEv.capture c, CEv.check]) 0 (k+1) := by
  have hr := compRun_finishAt k budget h
  constructor
  · rw [hr]
  · rw [hr]
    exact seqJoin_check_rotate (k+1) 0

/-- C6, witness: completion first observed after the evaluation of cycle 2
with budget 10 — the run executes exactly 3 cycles with one check after
each cycle's evaluation. -/
theorem c6_witness :
    (compRun (fun n => decide (2+1 ≤ n)) 10).2 = 2 + 1 ∧
    (compRun (fun n => decide (2+1 ≤ n)) 10).1
      = CEv.check :: seqJoin (fun c => [CEv.eval c, CEv.capture c, CEv.check]) 0 (2+1) :=
  c6_early_termination 2 10 (by omega)

/-! ### Claim C7 -/

/-- C7, amended.  The claim asserted exit code 0 exactly on normal
completion, non-zero on trace-sink or construction failures, and a
completion message reporting total cycles on success.  The drivers exit 0
unconditionally on reaching the end of `main` — trace-sink open/close
failures are never detected or reflected in the exit code — and only the
comprehensive driver's message reports the executed cycle count; the formal
driver prints a fixed success message without a count, and the basic driver
prints nothing. -/
theorem c7_exit_and_messages (R N budget : Nat) (f g : Nat → Bool) :
    (formalOut R N).exitCode = 0 ∧
    (vtbOut f).exitCode = 0 ∧
    (compOut g budget).exitCode = 0 ∧
    (formalOut R N).message = some ("Formal verification completed successfully") ∧
    (vtbOut f).message = none ∧
    (compOut g budget).message = some (compMessage (compRun g budget).2) :=
  ⟨rfl, rfl, rfl, rfl, rfl, rfl⟩

/-- C7, counterexample.  A run of the basic driver that completes (here:
the model signals finish at once) exits with code 0 — a success — yet emits
no completion message at all, contradicting the claimed "on success emits a
human-readable completion message reporting the total number of cycles". -/
theorem c7_counterexample :
    (vtbOut (fun _ => true)).exitCode = 0 ∧ (vtbOut (fun _ => true)).message = none :=
  ⟨rfl, rfl⟩

/-! ### Claim C8 -/

/-- C8, amended.  The claim asserted that configurations with overlapping
stimulus windows are rejected as a configuration error before any cycle
executes.  The code performs no configuration validation at all: a run
whose window list contains overlapping windows executes all of its `R + N`
cycles, and inside the overlap the earlier window of the if-chain simply
takes priority. -/
theorem c8_no_validation (ws : List Window) (R N : Nat) (w₁ w₂ : Window) (i : Nat) :
    cycleCount (formalRunW ws R N).1 = R + N ∧
    (w₁.start ≤ i → i < w₁.stop →
      computeInputsW [w₁, w₂] i = StimOut.valid (w₁.base + (i - w₁.start))) := by
  refine ⟨cycleCount_formalRunW ws R N, ?_⟩
  intro h1 h2
  simp only [computeInputsW]
  rw [if_pos ⟨h1, h2⟩]

/-- C8, counterexample.  Under the overlapping window pair `[10,26)` and
`[20,30)` — the spec's configuration-error example — the run executes 205
simulation cycles (at the source's loop bounds), not zero: nothing rejects
the configuration. -/
theorem c8_counterexample :
    cycleCount (formalRunW overlapWindows 5 200).1 = 205 ∧ (205 : Nat) ≠ 0 := by
  have := cycleCount_formalRunW overlapWindows 5 200
  exact ⟨by omega, by omega⟩

/-- C8, witness for the amended theorem: a two-cycle run under the
overlapping pair still executes both cycles, and at cycle 22 — inside both
windows — the first window wins. -/
theorem c8_witness :
    cycleCount (formalRunW overlapWindows 1 1).1 = 1 + 1 ∧
    computeInputsW [⟨10, 26, 0x1234⟩, ⟨20, 30, 0x5678⟩] 22
      = StimOut.valid (0x1234 + (22 - 10)) := by
  have h := c8_no_validation overlapWindows 1 1 ⟨10, 26, 0x1234⟩ ⟨20, 30, 0x5678⟩ 22
  exact ⟨h.1, h.2 (by decide) (by decide)⟩

/-! ### Claim C9 -/

/-- C9, amended.  The claim asserted finalize is invoked strictly before
the Trace Sink is closed and the model released.  In the code, the only
driver that invokes `final()` at all — the basic driver — closes and frees
the trace first, then finalizes, then releases the model; the comprehensive
and formal drivers never invoke finalize, closing the trace and releasing
the model directly.  (In all drivers the trace is closed before the model
is released.) -/
theorem c9_cleanup_order (finish g : Nat → Bool) (R N budget : Nat) :
    (vtbOut finish).events.filter isCleanupC
      = [CEv.closeTrace, CEv.freeTrace, CEv.finalize, CEv.release] ∧
    (compOut g budget).events.filter isCleanupC
      = [CEv.closeTrace, CEv.freeTrace, CEv.release] ∧
    (formalOut R N).events.filter isCleanup
      = [Ev.closeTrace, Ev.freeTrace, Ev.release] := by
  refine ⟨?_, ?_, ?_⟩
  · show (seqJoin (fun i => [CEv.eval i, CEv.capture i]) 0 10
        ++ vtbLoop finish 0 (vtbBudget + 1)
        ++ [CEv.closeTrace, CEv.freeTrace, CEv.finalize, CEv.release]).filter isCleanupC = _
    rw [List.filter_append, List.filter_append, seqJoin_evalcap_no_cleanup,
      vtbLoop_no_cleanup]
    rfl
  · show ((compLoop g budget 0 (budget+1)).1
        ++ [CEv.closeTrace, CEv.freeTrace, CEv.release]).filter isCleanupC = _
    rw [List.filter_append, compLoop_no_cleanup]
    rfl
  · show (formalRun R N ++ [Ev.closeTrace, Ev.freeTrace, Ev.release]).filter isCleanup = _
    rw [List.filter_append, formalRun_no_cleanup]
    rfl

/-- C9, counterexample.  In a concrete run of the basic driver (model
signals finish at once), the trace-close call occurs at an earlier event
position than the finalize call — finalize does not strictly precede the
Trace Sink's close, refuting the claim as stated. -/
theorem c9_counterexample :
    ((vtbOut (fun _ => true)).events.findIdx (fun x => decide (x = CEv.closeTrace))
      < (vtbOut (fun _ => true)).events.findIdx (fun x => decide (x = CEv.finalize))) ∧
    CEv.finalize ∈ (vtbOut (fun _ => true)).events ∧
    CEv.closeTrace ∈ (vtbOut (fun _ => true)).events := by
  refine ⟨by decide, by decide, by decide⟩

/-! ### Claim C10 -/

/-- C10, confirmed.  For every finish behaviour and budget, the cycle count
the comprehensive driver reports in its completion message equals exactly
the number of evaluation events and exactly the number of capture events of
the run: each iteration evaluates once and captures once before
incrementing the counter, which nothing else modifies. -/
theorem c10_cycle_accounting (finish : Nat → Bool) (budget : Nat) :
    (compOut finish budget).message = some (compMessage (compRun finish budget).2) ∧
    ((compOut finish budget).events.countP isEvalC) = (compRun finish budget).2 ∧
    ((compOut finish budget).events.countP isCapC) = (compRun finish budget).2 := by
  have h := compLoop_counts finish budget (budget+1) 0
  rcases h with ⟨ha, hb, hd⟩
  rw [Nat.sub_zero] at hb hd
  refine ⟨rfl, ?_, ?_⟩
  · show ((compRun finish budget).1
        ++ [CEv.closeTrace, CEv.freeTrace, CEv.release]).countP isEvalC
        = (compRun finish budget).2
    rw [List.countP_append]
    have hz : ([CEv.closeTrace, CEv.freeTrace, CEv.release].countP isEvalC) = 0 := rfl
    rw [hz, Nat.add_zero]
    exact hb
  · show ((compRun finish budget).1
        ++ [CEv.closeTrace, CEv.freeTrace, CEv.release]).countP isCapC
        = (compRun finish budget).2
    rw [List.countP_append]
    have hz : ([CEv.closeTrace, CEv.freeTrace, CEv.release].countP isCapC) = 0 := rfl
    rw [hz, Nat.add_zero]
    exact hd

end Mlow
